import Mathlib

/-!
Verification of the bevy_asset_preload plugin (src/lib.rs) against its
natural-language specification.

The embedding models:
  * Rust strings as lists of characters, with str::replace and
    str::starts_with re-implemented on that representation;
  * the filesystem subtree under "./assets" as an inductive tree, where a
    node records whether read_dir succeeds on it;
  * the asset server as an abstract function from a path to an opaque
    handle, and as a per-tick function from a handle to its LoadState;
  * a panic (expect or explicit panic) as Except.error ();
  * one loading episode as a list of per-tick status assignments, run by
    the host scheduler until the poller requests the next state or panics.
-/

/-- Rust String / str, embedded as a list of characters. -/
abbrev Str := List Char

/-- Rust str::starts_with: the first argument is a prefix of the second. -/
def strStartsWith : Str → Str → Bool
  | [], _ => true
  | _ :: _, [] => false
  | p :: ps, c :: cs => p == c && strStartsWith ps cs

/-- Worker for replaceAll. The fuel argument only bounds the number of scan
steps; it is initialized to the length of the scanned string, which always
suffices, so the fuel-0 branch is never reached from replaceAll. -/
def replaceAllFuel (pat rep : Str) : Nat → Str → Str
  | 0, s => s
  | _ + 1, [] => []
  | fuel + 1, c :: rest =>
    if pat ≠ [] ∧ strStartsWith pat (c :: rest) = true then
      rep ++ replaceAllFuel pat rep fuel (List.drop (pat.length - 1) rest)
    else
      c :: replaceAllFuel pat rep fuel rest

/-- Rust str::replace: every non-overlapping occurrence of pat in s,
scanning left to right, is replaced by rep. -/
def replaceAll (pat rep s : Str) : Str :=
  replaceAllFuel pat rep s.length s

/-- Whether pat occurs as a contiguous substring of s. -/
def occursIn (pat : Str) : Str → Bool
  | [] => pat.isEmpty
  | c :: rest => strStartsWith pat (c :: rest) || occursIn pat rest

/-- The characters of "./assets", the root path passed to the recursive walk. -/
def assetsDir : Str := ['.', '/', 'a', 's', 's', 'e', 't', 's']

/-- The characters of "./assets/", the pattern deleted from emitted paths. -/
def assetsDirSlash : Str := ['.', '/', 'a', 's', 's', 'e', 't', 's', '/']

/-- The per-file path normalization in load_asset_paths_recursive:
path.replace(backslash, slash).replace("./assets/", ""). -/
def normalizePath (s : Str) : Str :=
  replaceAll assetsDirSlash [] (replaceAll ['\\'] ['/'] s)

/-- A filesystem subtree as observed by the walk. A file node is any entry on
which Path::is_dir returns false; a dir node is an entry on which it returns
true, with readable = false meaning that read_dir (or iterating one of its
entries) fails with an io error, in which case the recorded entry list is
irrelevant. -/
inductive FsNode where
  | file (name : Str) : FsNode
  | dir (name : Str) (readable : Bool) (entries : List FsNode) : FsNode

mutual
/-- Embedding of load_asset_paths_recursive from src/lib.rs. The first
argument is the full path string of the node; io errors (and hence the
io::Result Err return) are Except.error. A node that is not a directory
yields the empty list, because the is_dir guard skips the whole loop. -/
def load_asset_paths_recursive (path : Str) : FsNode → Except Unit (List Str)
  | .file _ => Except.ok []
  | .dir _ false _ => Except.error ()
  | .dir _ true entries => walkEntries path entries

/-- The for-loop of load_asset_paths_recursive over the entries of one
directory, in directory order: a file entry pushes its normalized path
string, a dir entry is recursed into and its results appended; any error
aborts the whole walk with no partial list. -/
def walkEntries (path : Str) : List FsNode → Except Unit (List Str)
  | [] => Except.ok []
  | .file name :: rest => do
      let tail ← walkEntries path rest
      Except.ok (normalizePath (path ++ '/' :: name) :: tail)
  | .dir name r es :: rest => do
      let here ← load_asset_paths_recursive (path ++ '/' :: name) (.dir name r es)
      let tail ← walkEntries path rest
      Except.ok (here ++ tail)
end

/-- Embedding of load_asset_paths together with its expect call: root models
the filesystem entry at "./assets" (none when that path is missing or
cannot be stat-ed, matching is_dir returning false), and the expect panic is
the error case. -/
def load_asset_paths (root : Option FsNode) : Except Unit (List Str) :=
  match root with
  | none => Except.ok []
  | some t => load_asset_paths_recursive assetsDir t

/-- Embedding of the PathSource enum from src/lib.rs. -/
inductive PathSource where
  | LoadFromFolder : PathSource
  | GivenPaths (paths : List Str) : PathSource

/-- Embedding of PathSource::load_assets. H is the opaque untyped-handle
type and server maps a path to the handle returned by
asset_server.load_untyped(p).untyped(); the folder variant first collects the
paths (propagating the expect panic), then requests one load per path. -/
def PathSource.load_assets {H : Type} (src : PathSource) (root : Option FsNode)
    (server : Str → H) : Except Unit (List H) :=
  match src with
  | .LoadFromFolder => do
      let paths ← load_asset_paths root
      Except.ok (paths.map server)
  | .GivenPaths paths => Except.ok (paths.map server)

/-- The path set a PathSource resolves to: the folder walk for
LoadFromFolder, or the stored list (kept verbatim by the load_given_paths
constructor) for GivenPaths. -/
def resolvePaths (src : PathSource) (root : Option FsNode) : Except Unit (List Str) :=
  match src with
  | .LoadFromFolder => load_asset_paths root
  | .GivenPaths paths => Except.ok paths

/-- The piece of the ECS world owned by the plugin: the LoadedAssets
registry resource, none when the resource is not present. -/
structure World (H : Type) where
  loadedAssets : Option (List H)
deriving DecidableEq

/-- Embedding of start_asset_loading: load all assets of the source and
insert_resource the resulting handle list, replacing any prior registry. -/
def start_asset_loading {H : Type} (src : PathSource) (root : Option FsNode)
    (server : Str → H) (_w : World H) : Except Unit (World H) := do
  let handles ← PathSource.load_assets src root server
  Except.ok { loadedAssets := some handles }

/-- Embedding of bevy LoadState as observed through
asset_server.load_state(handle_id). -/
inductive LoadState where
  | notLoaded
  | loading
  | loaded
  | failed
deriving DecidableEq

/-- Whether a load state is classified as loaded by the poller. -/
def isLoaded : LoadState → Bool
  | .loaded => true
  | _ => false

/-- Specification-side loaded count: the number of registry handles whose
state is classified loaded. -/
def loadedOf (sts : List LoadState) : Nat :=
  (sts.filter isLoaded).length

/-- The filter-count inside switch_state_when_all_loaded: counts Loaded
states in registry order and panics (error) on the first Failed state. -/
def countLoaded : List LoadState → Except Unit Nat
  | [] => Except.ok 0
  | s :: rest =>
    match s with
    | .loaded => (countLoaded rest).map (· + 1)
    | .failed => Except.error ()
    | _ => countLoaded rest

/-- Embedding of the AssetPreloadUpdate message. -/
structure AssetPreloadUpdate where
  num_loaded : Nat
  num_loading : Nat
deriving DecidableEq

/-- Everything one poller tick does: the messages written by the
MessageWriter, and whether next_state.set was called. -/
structure TickOutput where
  events : List AssetPreloadUpdate
  setNext : Bool
deriving DecidableEq

/-- Embedding of one run of switch_state_when_all_loaded: sts is the load
state the asset server reports for each registry handle, in registry order.
The count is computed first (panicking on a failed load before anything is
written), then exactly one message is written, then the next state is set
when the count equals the registry size. -/
def switch_state_when_all_loaded (sts : List LoadState) : Except Unit TickOutput := do
  let num_loaded ← countLoaded sts
  Except.ok
    { events := [{ num_loaded := num_loaded, num_loading := sts.length }]
      setNext := num_loaded == sts.length }

/-- One loading episode: regs is the fixed registry populated on entry, and
each element of the second list gives the per-handle load state at one
successive Update tick. The poller is gated by in_state(loading), so the
host stops scheduling it after the tick that set the next state (the state
transition applies before the following Update), and a panic aborts the
process; the result is the list of per-tick results actually produced. -/
def runEpisode {H : Type} (regs : List H) :
    List (H → LoadState) → List (Except Unit TickOutput)
  | [] => []
  | f :: rest =>
    match switch_state_when_all_loaded (regs.map f) with
    | Except.error e => [Except.error e]
    | Except.ok out => Except.ok out :: (if out.setNext then [] else runEpisode regs rest)

/-- The two systems the plugin contributes. -/
inductive PluginSystem where
  | startAssetLoading
  | switchStateWhenAllLoaded
deriving DecidableEq

/-- The schedule registrations performed by a plugin build. -/
structure BuildResult where
  onEnterLoading : List PluginSystem
  updateWhileLoading : List PluginSystem
  onExitLoading : List PluginSystem
deriving DecidableEq

/-- Embedding of AssetPreloadPlugin::build: one system on
OnEnter(loading_state), one Update system gated by in_state(loading_state),
and no system on OnExit(loading_state) or any other exit-time hook. -/
def AssetPreloadPlugin.build : BuildResult :=
  { onEnterLoading := [PluginSystem.startAssetLoading]
    updateWhileLoading := [PluginSystem.switchStateWhenAllLoaded]
    onExitLoading := [] }

/-- Effect of one registered system on the registry resource:
start_asset_loading inserts a freshly loaded handle list, while the poller
takes Res of LoadedAssets (read-only) and leaves the resource unchanged. -/
def registryEffect {H : Type} (src : PathSource) (root : Option FsNode)
    (server : Str → H) : PluginSystem → Option (List H) → Except Unit (Option (List H))
  | PluginSystem.startAssetLoading, _ =>
      (PathSource.load_assets src root server).map some
  | PluginSystem.switchStateWhenAllLoaded, reg => Except.ok reg

/-- The registry resource after the host enters the loading state: the fold
of the systems registered on OnEnter(loading) over the current registry. -/
def registryAfterEnter {H : Type} (src : PathSource) (root : Option FsNode)
    (server : Str → H) (reg : Option (List H)) : Except Unit (Option (List H)) :=
  AssetPreloadPlugin.build.onEnterLoading.foldlM
    (fun r sys => registryEffect src root server sys r) reg

/-- The registry resource after the host leaves the loading state: the fold
of the systems registered on OnExit(loading) over the current registry. -/
def registryAfterExit {H : Type} (src : PathSource) (root : Option FsNode)
    (server : Str → H) (reg : Option (List H)) : Except Unit (Option (List H)) :=
  AssetPreloadPlugin.build.onExitLoading.foldlM
    (fun r sys => registryEffect src root server sys r) reg

mutual
/-- Modelled from the spec (for the refinement comparison in the folder-mode
claim): the relative paths, joined with forward slashes, of the
non-directory entries inside one tree entry. -/
def relPathsOf : FsNode → List Str
  | .file name => [name]
  | .dir name _ es => (relPathsList es).map (fun p => name ++ '/' :: p)

/-- Modelled from the spec: relative paths of the files below a list of
sibling entries, in entry order. -/
def relPathsList : List FsNode → List Str
  | [] => []
  | e :: rest => relPathsOf e ++ relPathsList rest
end

mutual
/-- The number of non-directory entries in a tree. -/
def fileCount : FsNode → Nat
  | .file _ => 1
  | .dir _ _ es => fileCountList es

/-- The number of non-directory entries below a list of sibling entries. -/
def fileCountList : List FsNode → Nat
  | [] => 0
  | e :: rest => fileCount e + fileCountList rest
end

mutual
/-- Whether every directory in a tree can be read without an io error. -/
def allReadable : FsNode → Bool
  | .file _ => true
  | .dir _ r es => r && allReadableList es

/-- Whether every directory below a list of sibling entries is readable. -/
def allReadableList : List FsNode → Bool
  | [] => true
  | e :: rest => allReadable e && allReadableList rest
end

/-- Every string starts with itself, whatever follows. -/
theorem strStartsWith_self_append (pat s : Str) : strStartsWith pat (pat ++ s) = true := by
  induction pat with
  | nil => rfl
  | cons p ps ih => simp [strStartsWith, ih]

theorem replaceAllFuel_no_occur (pat rep : Str) :
    ∀ (fuel : Nat) (s : Str), occursIn pat s = false → replaceAllFuel pat rep fuel s = s := by
  intro fuel
  induction fuel with
  | zero => intro s _; rfl
  | succ n ih =>
    intro s hs
    cases s with
    | nil => rfl
    | cons c rest =>
      simp only [occursIn, Bool.or_eq_false_iff] at hs
      simp [replaceAllFuel, hs.1, ih rest hs.2]

theorem replaceAll_no_occur (pat rep s : Str) (h : occursIn pat s = false) :
    replaceAll pat rep s = s :=
  replaceAllFuel_no_occur pat rep s.length s h

theorem occursIn_single_eq_false (c : Char) (s : Str) (h : c ∉ s) : occursIn [c] s = false := by
  induction s with
  | nil => rfl
  | cons d rest ih =>
    rw [List.mem_cons] at h
    push_neg at h
    simp [occursIn, strStartsWith, h.1, ih h.2]

theorem replaceAll_strip (pat rep s : Str) (hne : pat ≠ []) (h : occursIn pat s = false) :
    replaceAll pat rep (pat ++ s) = rep ++ s := by
  cases pat with
  | nil => exact absurd rfl hne
  | cons q qs =>
    show replaceAllFuel (q :: qs) rep ((q :: qs) ++ s).length ((q :: qs) ++ s) = rep ++ s
    have hsw : strStartsWith (q :: qs) (q :: (qs ++ s)) = true :=
      strStartsWith_self_append (q :: qs) s
    simp only [List.cons_append, List.length_cons, List.length_append]
    simp only [replaceAllFuel, List.length_cons]
    rw [if_pos ⟨List.cons_ne_nil q qs, hsw⟩]
    have hdrop : List.drop (qs.length + 1 - 1) (qs ++ s) = s := by
      simp [List.drop_left]
    rw [hdrop, replaceAllFuel_no_occur (q :: qs) rep _ s h]

theorem normalizePath_rel (p : Str) (hb : ('\\' : Char) ∉ p)
    (ho : occursIn assetsDirSlash p = false) :
    normalizePath (assetsDir ++ '/' :: p) = p := by
  have hfull : assetsDir ++ '/' :: p = assetsDirSlash ++ p := rfl
  rw [normalizePath, hfull]
  have hb2 : ('\\' : Char) ∉ assetsDirSlash ++ p := by
    intro hm
    rcases List.mem_append.mp hm with h1 | h1
    · exact absurd h1 (by decide)
    · exact hb h1
  rw [replaceAll_no_occur _ _ _ (occursIn_single_eq_false _ _ hb2)]
  rw [replaceAll_strip assetsDirSlash [] p (by decide) ho]
  rfl

/-- Reduction of the Except monad bind on a success value. -/
theorem exceptOkBind {ε α β : Type} (a : α) (f : α → Except ε β) :
    (Except.ok a : Except ε α) >>= f = f a := rfl

/-- The path strings the walk emits below one node, before the full-path
normalization: empty for a non-directory node (the is_dir guard skips the
loop), the relative file paths of its entries for a directory node. -/
def emittedRel : FsNode → List Str
  | .file _ => []
  | .dir _ _ es => relPathsList es

mutual
theorem walkNode_ok (t : FsNode) (path : Str) (h : allReadable t = true) :
    load_asset_paths_recursive path t =
      Except.ok ((emittedRel t).map (fun p => normalizePath (path ++ '/' :: p))) := by
  cases t with
  | file name => rfl
  | dir name r es =>
    cases r with
    | false => simp [allReadable] at h
    | true =>
      have hes : allReadableList es = true := by
        simpa [allReadable] using h
      show walkEntries path es = _
      rw [walkEntries_ok es path hes]
      rfl

theorem walkEntries_ok (es : List FsNode) (path : Str) (h : allReadableList es = true) :
    walkEntries path es =
      Except.ok ((relPathsList es).map (fun p => normalizePath (path ++ '/' :: p))) := by
  cases es with
  | nil => rfl
  | cons e rest =>
    simp only [allReadableList, Bool.and_eq_true] at h
    cases e with
    | file name =>
      show (do
          let tail ← walkEntries path rest
          Except.ok (normalizePath (path ++ '/' :: name) :: tail)) = _
      rw [walkEntries_ok rest path h.2]
      rfl
    | dir name r' es' =>
      show (do
          let here ← load_asset_paths_recursive (path ++ '/' :: name) (.dir name r' es')
          let tail ← walkEntries path rest
          Except.ok (here ++ tail)) = _
      rw [walkNode_ok (.dir name r' es') (path ++ '/' :: name) h.1,
        walkEntries_ok rest path h.2]
      simp only [exceptOkBind, emittedRel, relPathsList, relPathsOf, List.map_append,
        List.map_map, Except.ok.injEq]
      congr 1
      apply List.map_congr_left
      intro p _
      simp [List.append_assoc]
end

mutual
theorem walkNode_err (t : FsNode) (path : Str) (h : allReadable t = false) :
    load_asset_paths_recursive path t = Except.error () := by
  cases t with
  | file name => simp [allReadable] at h
  | dir name r es =>
    cases r with
    | false => rfl
    | true =>
      have hes : allReadableList es = false := by
        simpa [allReadable] using h
      show walkEntries path es = _
      exact walkEntries_err es path hes

theorem walkEntries_err (es : List FsNode) (path : Str) (h : allReadableList es = false) :
    walkEntries path es = Except.error () := by
  cases es with
  | nil => simp [allReadableList] at h
  | cons e rest =>
    simp only [allReadableList, Bool.and_eq_false_iff] at h
    cases e with
    | file name =>
      have hrest : allReadableList rest = false := by
        rcases h with h1 | h1
        · simp [allReadable] at h1
        · exact h1
      show (do
          let tail ← walkEntries path rest
          Except.ok (normalizePath (path ++ '/' :: name) :: tail)) = _
      rw [walkEntries_err rest path hrest]
      rfl
    | dir name r' es' =>
      show (do
          let here ← load_asset_paths_recursive (path ++ '/' :: name) (.dir name r' es')
          let tail ← walkEntries path rest
          Except.ok (here ++ tail)) = _
      rcases h with h1 | h1
      · rw [walkNode_err (.dir name r' es') (path ++ '/' :: name) h1]
        rfl
      · cases hres : load_asset_paths_recursive (path ++ '/' :: name) (.dir name r' es') with
        | error e => rfl
        | ok here =>
          show (do
              let tail ← walkEntries path rest
              Except.ok (here ++ tail) : Except Unit (List Str)) = _
          rw [walkEntries_err rest path h1]
          rfl
end

mutual
theorem relPathsOf_length (t : FsNode) : (relPathsOf t).length = fileCount t := by
  cases t with
  | file name => rfl
  | dir name r es =>
    show ((relPathsList es).map _).length = fileCountList es
    rw [List.length_map]
    exact relPathsList_length es

theorem relPathsList_length (es : List FsNode) : (relPathsList es).length = fileCountList es := by
  cases es with
  | nil => rfl
  | cons e rest =>
    show (relPathsOf e ++ relPathsList rest).length = fileCount e + fileCountList rest
    rw [List.length_append, relPathsOf_length e, relPathsList_length rest]
end

theorem countLoaded_eq_ok (sts : List LoadState) (h : LoadState.failed ∉ sts) :
    countLoaded sts = Except.ok (loadedOf sts) := by
  induction sts with
  | nil => rfl
  | cons s rest ih =>
    rw [List.mem_cons] at h
    push_neg at h
    have ihr := ih h.2
    cases s with
    | loaded => simp [countLoaded, ihr, loadedOf, isLoaded, List.filter, Except.map]
    | failed => exact absurd rfl h.1
    | notLoaded => simp [countLoaded, ihr, loadedOf, isLoaded, List.filter]
    | loading => simp [countLoaded, ihr, loadedOf, isLoaded, List.filter]

theorem countLoaded_eq_error (sts : List LoadState) (h : LoadState.failed ∈ sts) :
    countLoaded sts = Except.error () := by
  induction sts with
  | nil => exact absurd h (List.not_mem_nil _)
  | cons s rest ih =>
    rw [List.mem_cons] at h
    cases s with
    | failed => rfl
    | loaded =>
      have hrest : LoadState.failed ∈ rest := by
        rcases h with h1 | h1
        · exact absurd h1.symm (by decide)
        · exact h1
      simp [countLoaded, ih hrest, Except.map]
    | notLoaded =>
      have hrest : LoadState.failed ∈ rest := by
        rcases h with h1 | h1
        · exact absurd h1.symm (by decide)
        · exact h1
      simp [countLoaded, ih hrest]
    | loading =>
      have hrest : LoadState.failed ∈ rest := by
        rcases h with h1 | h1
        · exact absurd h1.symm (by decide)
        · exact h1
      simp [countLoaded, ih hrest]

theorem switch_eq_ok_of_no_failed (sts : List LoadState) (h : LoadState.failed ∉ sts) :
    switch_state_when_all_loaded sts =
      Except.ok { events := [{ num_loaded := loadedOf sts, num_loading := sts.length }]
                  setNext := loadedOf sts == sts.length } := by
  show (do
      let num_loaded ← countLoaded sts
      Except.ok
        ({ events := [{ num_loaded := num_loaded, num_loading := sts.length }]
           setNext := num_loaded == sts.length } : TickOutput)) = _
  rw [countLoaded_eq_ok sts h]
  rfl

theorem switch_eq_error_of_failed (sts : List LoadState) (h : LoadState.failed ∈ sts) :
    switch_state_when_all_loaded sts = Except.error () := by
  show (do
      let num_loaded ← countLoaded sts
      Except.ok
        ({ events := [{ num_loaded := num_loaded, num_loading := sts.length }]
           setNext := num_loaded == sts.length } : TickOutput)) = _
  rw [countLoaded_eq_error sts h]
  rfl

theorem switch_ok_inv (sts : List LoadState) (out : TickOutput)
    (h : switch_state_when_all_loaded sts = Except.ok out) :
    out = { events := [{ num_loaded := loadedOf sts, num_loading := sts.length }]
            setNext := loadedOf sts == sts.length } := by
  by_cases hmem : LoadState.failed ∈ sts
  · rw [switch_eq_error_of_failed sts hmem] at h
    exact absurd h (by intro hc; exact Except.noConfusion hc)
  · rw [switch_eq_ok_of_no_failed sts hmem] at h
    exact (Except.ok.inj h).symm

theorem loadedOf_le (sts : List LoadState) : loadedOf sts ≤ sts.length :=
  List.length_filter_le _ _

theorem runEpisode_cons_error {H : Type} (regs : List H) (f : H → LoadState)
    (rest : List (H → LoadState)) (e : Unit)
    (h : switch_state_when_all_loaded (regs.map f) = Except.error e) :
    runEpisode regs (f :: rest) = [Except.error e] := by
  rw [runEpisode, h]

theorem runEpisode_cons_ok {H : Type} (regs : List H) (f : H → LoadState)
    (rest : List (H → LoadState)) (out : TickOutput)
    (h : switch_state_when_all_loaded (regs.map f) = Except.ok out) :
    runEpisode regs (f :: rest) =
      Except.ok out :: (if out.setNext then [] else runEpisode regs rest) := by
  rw [runEpisode, h]

theorem runEpisode_spec {H : Type} (regs : List H) :
    ∀ (fs : List (H → LoadState)) (i : Nat) (r : Except Unit TickOutput),
      (runEpisode regs fs)[i]? = some r →
      (∃ f, fs[i]? = some f ∧ r = switch_state_when_all_loaded (regs.map f)) ∧
      (∀ j, j < i → ∃ fj outj, fs[j]? = some fj ∧
          (runEpisode regs fs)[j]? = some (Except.ok outj) ∧
          switch_state_when_all_loaded (regs.map fj) = Except.ok outj ∧
          outj.setNext = false) := by
  intro fs
  induction fs with
  | nil =>
    intro i r h
    simp [runEpisode] at h
  | cons f rest ih =>
    intro i r h
    cases hsw : switch_state_when_all_loaded (regs.map f) with
    | error e =>
      rw [runEpisode_cons_error regs f rest e hsw] at h
      cases i with
      | zero =>
        simp at h
        subst h
        exact ⟨⟨f, by simp, hsw.symm⟩, by intro j hj; omega⟩
      | succ i' => simp at h
    | ok out =>
      rw [runEpisode_cons_ok regs f rest out hsw] at h
      by_cases hset : out.setNext = true
      · rw [if_pos hset] at h
        cases i with
        | zero =>
          simp at h
          subst h
          exact ⟨⟨f, by simp, hsw.symm⟩, by intro j hj; omega⟩
        | succ i' => simp at h
      · rw [if_neg hset] at h
        rw [Bool.not_eq_true] at hset
        cases i with
        | zero =>
          simp at h
          subst h
          exact ⟨⟨f, by simp, hsw.symm⟩, by intro j hj; omega⟩
        | succ i' =>
          rw [List.getElem?_cons_succ] at h
          obtain ⟨⟨fi, hfi, hri⟩, hpriors⟩ := ih i' r h
          refine ⟨⟨fi, by simpa using hfi, hri⟩, ?_⟩
          intro j hj
          cases j with
          | zero =>
            refine ⟨f, out, by simp, ?_, hsw, hset⟩
            rw [runEpisode_cons_ok regs f rest out hsw, if_neg (by rw [hset]; decide)]
            simp
          | succ j' =>
            obtain ⟨fj, outj, h1, h2, h3, h4⟩ := hpriors j' (by omega)
            refine ⟨fj, outj, by simpa using h1, ?_, h3, h4⟩
            rw [runEpisode_cons_ok regs f rest out hsw, if_neg (by rw [hset]; decide)]
            simpa using h2

theorem runEpisode_stop {H : Type} (regs : List H) :
    ∀ (fs : List (H → LoadState)) (i : Nat) (out : TickOutput),
      (runEpisode regs fs)[i]? = some (Except.ok out) → out.setNext = true →
      (runEpisode regs fs).length = i + 1 := by
  intro fs
  induction fs with
  | nil =>
    intro i out h _
    simp [runEpisode] at h
  | cons f rest ih =>
    intro i out h hset
    cases hsw : switch_state_when_all_loaded (regs.map f) with
    | error e =>
      rw [runEpisode_cons_error regs f rest e hsw] at h ⊢
      cases i with
      | zero => simp at h
      | succ i' => simp at h
    | ok out' =>
      rw [runEpisode_cons_ok regs f rest out' hsw] at h ⊢
      by_cases hset' : out'.setNext = true
      · rw [if_pos hset'] at h ⊢
        cases i with
        | zero => rfl
        | succ i' => simp at h
      · rw [if_neg hset'] at h ⊢
        rw [Bool.not_eq_true] at hset'
        cases i with
        | zero =>
          simp at h
          subst h
          rw [hset] at hset'
          exact absurd hset' (by decide)
        | succ i' =>
          rw [List.getElem?_cons_succ] at h
          simp [ih i' out h hset]

/-- Reduction of the Except monad bind on an error value. -/
theorem exceptErrBind {ε α β : Type} (e : ε) (f : α → Except ε β) :
    (Except.error e : Except ε α) >>= f = Except.error e := rfl

/-- C1: during one loading episode the poller requests the transition to the
configured next state exactly once, in the tick where the number of handles
reporting loaded first equals the registry size, and never in a tick where
the loaded count is strictly below the registry size. Formally: every
non-panicking tick result of runEpisode sets the next state iff its loaded
count equals the registry size; the episode produces no tick after one that
set the next state; and every earlier tick had a strictly smaller loaded
count. -/
theorem transition_fires_once_at_threshold {H : Type} (regs : List H)
    (fs : List (H → LoadState)) (i : Nat) (out : TickOutput)
    (h : (runEpisode regs fs)[i]? = some (Except.ok out)) :
    (∃ f, fs[i]? = some f ∧
        (out.setNext = true ↔ loadedOf (regs.map f) = regs.length) ∧
        (loadedOf (regs.map f) < regs.length → out.setNext = false)) ∧
    (out.setNext = true → (runEpisode regs fs).length = i + 1) ∧
    (∀ j, j < i → ∃ fj outj, fs[j]? = some fj ∧
        (runEpisode regs fs)[j]? = some (Except.ok outj) ∧ outj.setNext = false ∧
        loadedOf (regs.map fj) < regs.length) := by
  obtain ⟨⟨f, hf, hr⟩, hpriors⟩ := runEpisode_spec regs fs i _ h
  have hout := switch_ok_inv (regs.map f) out hr.symm
  have hsetNext : out.setNext = (loadedOf (regs.map f) == (regs.map f).length) := by
    rw [hout]
  refine ⟨⟨f, hf, ?_, ?_⟩, ?_, ?_⟩
  · rw [hsetNext, List.length_map]
    exact beq_iff_eq
  · intro hlt
    rw [hsetNext, List.length_map]
    exact beq_eq_false_iff_ne.mpr (Nat.ne_of_lt hlt)
  · exact fun hs => runEpisode_stop regs fs i out h hs
  · intro j hj
    obtain ⟨fj, outj, h1, h2, h3, h4⟩ := hpriors j hj
    have houtj := switch_ok_inv (regs.map fj) outj h3
    refine ⟨fj, outj, h1, h2, h4, ?_⟩
    have hsetj : outj.setNext = (loadedOf (regs.map fj) == (regs.map fj).length) := by
      rw [houtj]
    rw [h4] at hsetj
    have hne : loadedOf (regs.map fj) ≠ (regs.map fj).length :=
      beq_eq_false_iff_ne.mp hsetj.symm
    have hle := loadedOf_le (regs.map fj)
    rw [List.length_map] at hne hle
    omega

/-- Witness for C1: a two-tick episode over one handle; the poller produces a
second tick result that sets the next state, and the episode ends there. -/
theorem transition_fires_once_at_threshold_witness :
    (runEpisode ([0] : List Nat)
        [fun _ => LoadState.loading, fun _ => LoadState.loaded])[1]? =
      some (Except.ok { events := [{ num_loaded := 1, num_loading := 1 }], setNext := true }) ∧
    (runEpisode ([0] : List Nat)
        [fun _ => LoadState.loading, fun _ => LoadState.loaded]).length = 2 :=
  ⟨rfl,
    (transition_fires_once_at_threshold [0]
        [fun _ => LoadState.loading, fun _ => LoadState.loaded] 1
        { events := [{ num_loaded := 1, num_loading := 1 }], setNext := true } rfl).2.1 rfl⟩

/-- C2: in every poll tick in which at least one handle reports a failed
load, the process panics; the panic happens while counting, before the tick
writes its progress message, so the error result carries no event at all. -/
theorem failed_load_panics_before_event (sts : List LoadState)
    (h : LoadState.failed ∈ sts) :
    switch_state_when_all_loaded sts = Except.error () :=
  switch_eq_error_of_failed sts h

/-- Witness for C2: a registry with one loaded and one failed handle
panics. -/
theorem failed_load_panics_before_event_witness :
    LoadState.failed ∈ [LoadState.loaded, LoadState.failed] ∧
    switch_state_when_all_loaded [LoadState.loaded, LoadState.failed] =
      Except.error () :=
  ⟨by decide, failed_load_panics_before_event _ (by decide)⟩

/-- Counterexample for C3: when the assets root is missing (or cannot be
stat-ed as a directory), the collection does not abort: is_dir returns
false, the walk returns Ok with the empty vector, the expect succeeds, and
the empty path list is used to load zero assets. -/
theorem missing_root_returns_empty_cex :
    load_asset_paths none = Except.ok [] ∧
    PathSource.load_assets PathSource.LoadFromFolder none (fun p => p) = Except.ok [] ∧
    load_asset_paths none ≠ Except.error () :=
  ⟨rfl, rfl, fun hc => Except.noConfusion hc⟩

/-- C3 amended: if the assets root is a directory but reading it, or any
directory reached during the traversal, fails with an io error, the
collection panics via the expect with no partial path list (the error result
carries no list at all); a missing or non-directory root however does not
abort and yields the empty path list, which is then used. -/
theorem read_error_aborts_but_missing_root_yields_empty (root : FsNode)
    (h : allReadable root = false) :
    load_asset_paths (some root) = Except.error () ∧
    load_asset_paths none = Except.ok [] :=
  ⟨walkNode_err root assetsDir h, rfl⟩

/-- Witness for the amended C3: an unreadable root directory panics. -/
theorem read_error_aborts_witness :
    allReadable (FsNode.dir ['a'] false []) = false ∧
    load_asset_paths (some (FsNode.dir ['a'] false [])) = Except.error () :=
  ⟨rfl, (read_error_aborts_but_missing_root_yields_empty (FsNode.dir ['a'] false []) rfl).1⟩

/-- Counterexample for C4: the replace of "./assets/" removes every
occurrence, not only the leading one, so a tree with a directory named
"x." containing a directory named "assets" containing a file "f" is emitted
as "xf" instead of its relative path "x./assets/f". -/
theorem folder_relative_path_cex :
    load_asset_paths (some (FsNode.dir ['a', 's', 's', 'e', 't', 's'] true
        [FsNode.dir ['x', '.'] true
          [FsNode.dir ['a', 's', 's', 'e', 't', 's'] true [FsNode.file ['f']]]])) =
      Except.ok [['x', 'f']] ∧
    relPathsList
        [FsNode.dir ['x', '.'] true
          [FsNode.dir ['a', 's', 's', 'e', 't', 's'] true [FsNode.file ['f']]]] =
      [['x', '.', '/', 'a', 's', 's', 'e', 't', 's', '/', 'f']] ∧
    (['x', 'f'] : Str) ≠ ['x', '.', '/', 'a', 's', 's', 'e', 't', 's', '/', 'f'] :=
  ⟨rfl, rfl, by decide⟩

/-- C4 amended: for every readable directory tree whose entry names contain
no backslash and whose relative file paths do not contain the substring
"./assets/", folder-mode collection returns exactly the relative paths of
the non-directory entries, slash-joined in traversal order (directories are
descended into, never emitted), and the number of returned paths equals the
number of files in the tree. -/
theorem folder_mode_collects_relative_paths (name : Str) (es : List FsNode)
    (hread : allReadableList es = true)
    (hgood : ∀ p ∈ relPathsList es,
        ('\\' : Char) ∉ p ∧ occursIn assetsDirSlash p = false) :
    load_asset_paths (some (FsNode.dir name true es)) = Except.ok (relPathsList es) ∧
    (relPathsList es).length = fileCountList es := by
  constructor
  · have h1 : load_asset_paths (some (FsNode.dir name true es)) =
        walkEntries assetsDir es := rfl
    rw [h1, walkEntries_ok es assetsDir hread]
    congr 1
    have hid : ∀ p ∈ relPathsList es, normalizePath (assetsDir ++ '/' :: p) = p := by
      intro p hp
      exact normalizePath_rel p (hgood p hp).1 (hgood p hp).2
    rw [List.map_congr_left hid, List.map_id']
  · exact relPathsList_length es

/-- Witness for the amended C4: a small tree with a top-level file and a
nested file collects to the two relative paths. -/
theorem folder_mode_collects_relative_paths_witness :
    allReadableList [FsNode.file ['a'], FsNode.dir ['s'] true [FsNode.file ['b']]] = true ∧
    (∀ p ∈ relPathsList [FsNode.file ['a'], FsNode.dir ['s'] true [FsNode.file ['b']]],
        ('\\' : Char) ∉ p ∧ occursIn assetsDirSlash p = false) ∧
    load_asset_paths (some (FsNode.dir ['a', 's', 's', 'e', 't', 's'] true
        [FsNode.file ['a'], FsNode.dir ['s'] true [FsNode.file ['b']]])) =
      Except.ok [['a'], ['s', '/', 'b']] :=
  ⟨by decide, by decide,
    (folder_mode_collects_relative_paths ['a', 's', 's', 'e', 't', 's']
        [FsNode.file ['a'], FsNode.dir ['s'] true [FsNode.file ['b']]]
        (by decide) (by decide)).1⟩

/-- C5: a poll tick without any failed handle does not panic and writes
exactly one progress message, whose loaded count is the number of handles
classified loaded (in-flight handles count toward neither the loaded count
nor a failure) and whose total is the registry size, whether or not anything
changed since the previous tick. -/
theorem tick_emits_one_event_with_counts (sts : List LoadState)
    (h : LoadState.failed ∉ sts) :
    switch_state_when_all_loaded sts =
      Except.ok { events := [{ num_loaded := loadedOf sts, num_loading := sts.length }]
                  setNext := loadedOf sts == sts.length } :=
  switch_eq_ok_of_no_failed sts h

/-- Witness for C5: one loaded and two in-flight handles give one event with
counts one of three. -/
theorem tick_emits_one_event_with_counts_witness :
    LoadState.failed ∉ [LoadState.loaded, LoadState.loading, LoadState.notLoaded] ∧
    switch_state_when_all_loaded [LoadState.loaded, LoadState.loading, LoadState.notLoaded] =
      Except.ok { events := [{ num_loaded := 1, num_loading := 3 }], setNext := false } :=
  ⟨by decide, tick_emits_one_event_with_counts _ (by decide)⟩

/-- C6: every message emitted by a non-panicking poll tick satisfies
loaded less than or equal to total (both are naturals, so zero is a lower
bound), and its total is the registry size, which is the same at every tick
of the episode because the registry is fixed at population time and the
poller only reads it. -/
theorem progress_counts_invariant {H : Type} (regs : List H)
    (fs : List (H → LoadState)) (i : Nat) (out : TickOutput)
    (h : (runEpisode regs fs)[i]? = some (Except.ok out)) :
    ∀ ev ∈ out.events, ev.num_loaded ≤ ev.num_loading ∧ ev.num_loading = regs.length := by
  obtain ⟨⟨f, hf, hr⟩, _⟩ := runEpisode_spec regs fs i _ h
  have hout := switch_ok_inv (regs.map f) out hr.symm
  intro ev hev
  rw [hout] at hev
  simp only [List.mem_singleton] at hev
  subst hev
  constructor
  · have := loadedOf_le (regs.map f)
    simpa using this
  · simp

/-- Witness for C6: the single tick of a one-handle episode satisfies the
bounds. -/
theorem progress_counts_invariant_witness :
    (runEpisode ([0] : List Nat) [fun _ => LoadState.loaded])[0]? =
      some (Except.ok { events := [{ num_loaded := 1, num_loading := 1 }], setNext := true }) ∧
    (∀ ev ∈ ({ events := [{ num_loaded := 1, num_loading := 1 }], setNext := true }
        : TickOutput).events,
      ev.num_loaded ≤ ev.num_loading ∧ ev.num_loading = 1) :=
  ⟨rfl, progress_counts_invariant [0] [fun _ => LoadState.loaded] 0 _ rfl⟩

/-- C7: literal-mode collection returns the caller-supplied list verbatim,
same strings, same order, same length, and one untyped load is requested per
path in that order. -/
theorem literal_mode_returns_paths_verbatim {H : Type} (L : List Str)
    (root : Option FsNode) (server : Str → H) :
    resolvePaths (PathSource.GivenPaths L) root = Except.ok L ∧
    PathSource.load_assets (PathSource.GivenPaths L) root server =
      Except.ok (L.map server) :=
  ⟨rfl, rfl⟩

/-- C8: when the source resolves to a path list, start_asset_loading stores
in a fresh registry exactly one handle per resolved path, in order, obtained
by an untyped load request, so the registry size equals the path count; the
result does not depend on the prior registry, which is replaced. -/
theorem start_loading_populates_registry {H : Type} (src : PathSource)
    (root : Option FsNode) (server : Str → H) (w : World H) (paths : List Str)
    (h : resolvePaths src root = Except.ok paths) :
    start_asset_loading src root server w =
      Except.ok { loadedAssets := some (paths.map server) } ∧
    (paths.map server).length = paths.length := by
  constructor
  · cases src with
    | GivenPaths l =>
      have hl : l = paths := by
        have h2 := h
        simp only [resolvePaths, Except.ok.injEq] at h2
        exact h2
      subst hl
      rfl
    | LoadFromFolder =>
      have hl : load_asset_paths root = Except.ok paths := h
      simp only [start_asset_loading, PathSource.load_assets]
      rw [hl]
      rfl
  · simp

/-- Witness for C8: a one-path literal source replaces a prior registry with
the single fresh handle. -/
theorem start_loading_populates_registry_witness :
    resolvePaths (PathSource.GivenPaths [['x']]) none = Except.ok [['x']] ∧
    start_asset_loading (PathSource.GivenPaths [['x']]) none (fun _ => (0 : Nat))
        { loadedAssets := some [7] } =
      Except.ok { loadedAssets := some [0] } :=
  ⟨rfl,
    (start_loading_populates_registry (PathSource.GivenPaths [['x']]) none
        (fun _ => (0 : Nat)) { loadedAssets := some [7] } [['x']] rfl).1⟩

/-- Counterexample for C9: the plugin registers nothing on leaving the
loading state, so after the state machine exits the registry resource is
still present, unchanged, not destroyed. -/
theorem registry_persists_after_exit_cex :
    registryAfterExit (PathSource.GivenPaths [['x']]) none (fun _ => (0 : Nat))
        (some [0]) = Except.ok (some [0]) ∧
    (some [0] : Option (List Nat)) ≠ none :=
  ⟨rfl, fun hc => Option.noConfusion hc⟩

/-- C9 amended: the registry is created (replacing any prior instance) when
the loading state is entered, but the plugin registers no teardown on state
exit, so leaving the loading state leaves the registry, and the handles it
retains, untouched. -/
theorem registry_created_on_enter_persists_after_exit {H : Type} (src : PathSource)
    (root : Option FsNode) (server : Str → H) (reg : Option (List H)) :
    AssetPreloadPlugin.build.onExitLoading = [] ∧
    registryAfterExit src root server reg = Except.ok reg ∧
    registryAfterEnter src root server reg =
      (PathSource.load_assets src root server).map some := by
  refine ⟨rfl, rfl, ?_⟩
  cases hres : PathSource.load_assets src root server with
  | error e =>
    simp [registryAfterEnter, AssetPreloadPlugin.build, registryEffect, List.foldlM,
      hres, Except.map, exceptErrBind]
  | ok handles =>
    simp [registryAfterEnter, AssetPreloadPlugin.build, registryEffect, List.foldlM,
      hres, Except.map, exceptOkBind]

/-- C10: with an empty resolved path set (empty literal list, or folder mode
with a missing assets root) loading starts with an empty registry, and the
first poll tick emits the event with loaded zero and total zero and
immediately requests the transition, without any panic. -/
theorem empty_path_set_immediate_transition {H : Type} (server : Str → H)
    (f : H → LoadState) (fs : List (H → LoadState)) :
    load_asset_paths none = Except.ok [] ∧
    PathSource.load_assets (PathSource.GivenPaths []) none server = Except.ok [] ∧
    runEpisode ([] : List H) (f :: fs) =
      [Except.ok { events := [{ num_loaded := 0, num_loading := 0 }], setNext := true }] :=
  ⟨rfl, rfl, rfl⟩
